import Mathlib

/-!
Verification of `evse_window.py` (comed-openevse).

Shallow embedding conventions:
* Timestamps (`datetime` values) are integers counting minutes. Every
  `datetime` the program manipulates lies on a whole minute (the feed parser
  builds them from year/month/day/hour and all further arithmetic adds whole
  minutes), so minute granularity is exact. `t.emod 1440` is the time-of-day
  in minutes (`datetime.time()`), and `t - t.emod 1440` is midnight of `t`'s
  calendar date, matching Python's floor-style `%`.
* Prices (`float` values) are embedded as rationals `ℚ`, with exact
  arithmetic; the program's `* 10` scaling is kept as written.
* A `time` value (`awake_until`) is an integer minute-of-day.
* Python list indexing (negative indices allowed) and slicing (index
  normalisation and clamping) are modelled by `pyGet` and `pySlice`.
* Fallible code returns `Except Err`; `Err` distinguishes the exceptions the
  program can raise: `IndexError` from out-of-range subscripts, `ValueError`
  from `min()` on an empty sequence, and the checksum-mismatch `Exception`
  raised in `RAPI.execute_cmd`.
-/

/-- The failure modes of the embedded code. -/
inductive Err where
  | indexError : Err
  | valueError : Err
  | mismatch : Err
deriving DecidableEq, Repr

/-- Embedding of `RatesType = List[Tuple[datetime, float]]`: (timestamp-in-minutes, price). -/
abbrev Rates := List (ℤ × ℚ)

/-- Normalise one bound of a Python slice `l[a:b]` for a list of length
`len`: negative bounds count from the end, and bounds are clamped to
`[0, len]`. -/
def pyNormIdx (len : ℕ) (i : ℤ) : ℕ :=
  if i < 0 then (i + len).toNat else min i.toNat len

/-- Python slice `l[a:b]` (step 1). -/
def pySlice (l : List α) (a b : ℤ) : List α :=
  let lo := pyNormIdx l.length a
  let hi := pyNormIdx l.length b
  (l.drop lo).take (hi - lo)

/-- Python subscript `l[i]`: negative indices count from the end; an
out-of-range index is an `IndexError`, modelled as `none`. -/
def pyGet (l : List α) (i : ℤ) : Option α :=
  if i < 0 then
    if 0 ≤ i + l.length then l.get? (i + l.length).toNat else none
  else
    if i < l.length then l.get? i.toNat else none

instance {ε α : Type} [DecidableEq ε] [DecidableEq α] : DecidableEq (Except ε α) := fun x y =>
  match x, y with
  | .error a, .error b =>
    if h : a = b then .isTrue (by rw [h]) else .isFalse (by intro hc; cases hc; exact h rfl)
  | .error _, .ok _ => .isFalse (by intro hc; cases hc)
  | .ok _, .error _ => .isFalse (by intro hc; cases hc)
  | .ok a, .ok b =>
    if h : a = b then .isTrue (by rw [h]) else .isFalse (by intro hc; cases hc; exact h rfl)

/-- Source `convert_rates`: expand each hour-ending rate `(end_hour, price)` into 60
per-minute points.  `start_hour = end_hour - timedelta(hours=1)` and the
emitted timestamps are `start_hour + offset` for `offset in range(60)`,
i.e. `end_hour - 60 … end_hour - 1`, all carrying `price`. -/
def convert_rates (rates : Rates) : Rates :=
  rates.flatMap (fun p => (List.range 60).map (fun (offset : ℕ) => (p.1 - 60 + (offset : ℤ), p.2)))

/-- The cost the program stores in `windows[i]`:
`sum(r[1] * 10 for r in rates[i:i+charge_minutes])`. -/
def windowCost (mrates : Rates) (cm : ℤ) (i : ℕ) : ℚ :=
  ((pySlice mrates i (i + cm)).map (fun r => r.2 * 10)).sum

/-- The `windows` list of `find_optimal_window`: `len(rates) - charge_minutes + 1`
entries (none when that is not positive, matching `[0.0] * k` for `k ≤ 0`),
entry `i` holding the scaled cost of the window starting at minute `i`. -/
def window_sums (mrates : Rates) (cm : ℤ) : List ℚ :=
  (List.range ((mrates.length - cm + 1 : ℤ)).toNat).map (windowCost mrates cm)

/-- The unscaled price sum of the window of `cm` minutes starting at index `i`
(the quantity the specification calls the window's cost sum). -/
def window_price_sum (mrates : Rates) (cm : ℤ) (i : ℕ) : ℚ :=
  ((pySlice mrates i (i + cm)).map (fun r => r.2)).sum

/-- Index of the first minimal element of a list: the value of
`min(range(len(w)), key=w.__getitem__)`, which returns the earliest index
attaining the minimum. -/
def argminIdx : List ℚ → ℕ
  | [] => 0
  | x :: xs =>
    let j := argminIdx xs
    match xs.get? j with
    | none => 0
    | some v => if v < x then j + 1 else 0

/-- The `start_idx = min(range(len(windows)), key=windows.__getitem__)` of the source. -/
def start_index (mrates : Rates) (cm : ℤ) : ℕ :=
  argminIdx (window_sums mrates cm)

/-- Source `find_optimal_window(rates, charge_hours, awake_until)`, taking
`charge_minutes = round(charge_hours * 60)` directly as the (integer)
duration parameter.  Faithful to the source:
* `rates = convert_rates(rates)`;
* `windows` as in `window_sums`; `min` of an empty `range` raises
  `ValueError`;
* `start = rates[start_idx][0]`, `end = rates[end_idx][0]` with Python
  subscripting (`IndexError` when out of range);
* one minute of symmetric padding;
* when `awake_until` is given and `end.time() < awake_until`, the end
  becomes `datetime.combine(end.date(), awake_until)`. -/
def find_optimal_window (rates : Rates) (charge_minutes : ℤ)
    (awake_until : Option ℤ) : Except Err (ℤ × ℤ) :=
  let mrates := convert_rates rates
  let windows := window_sums mrates charge_minutes
  if windows.isEmpty then .error .valueError
  else
    let start_idx := argminIdx windows
    let end_idx : ℤ := (start_idx : ℤ) + charge_minutes
    match pyGet mrates (start_idx : ℤ), pyGet mrates end_idx with
    | some s, some e =>
      let start := s.1 + 1
      let e1 := e.1 - 1
      let e2 := match awake_until with
        | some aw => if e1.emod 1440 < aw then e1 - e1.emod 1440 + aw else e1
        | none => e1
      .ok (start, e2)
    | _, _ => .error .indexError

/-! ### Properties of `argminIdx`

`min(range(len(w)), key=w.__getitem__)` returns the earliest index of a
minimal element: the chosen value is `≤` every element, and every index
strictly before the chosen one holds a strictly larger value. -/

theorem argminIdx_lt_length (w : List ℚ) (h : w ≠ []) : argminIdx w < w.length := by
  induction w with
  | nil => exact absurd rfl h
  | cons x xs ih =>
    cases hxs : xs with
    | nil => simp [argminIdx]
    | cons y ys =>
      have hne : xs ≠ [] := by simp [hxs]
      have hlt := ih hne
      rw [← hxs]
      have hsome : xs.get? (argminIdx xs) = some (xs.get ⟨argminIdx xs, hlt⟩) :=
        List.get?_eq_get hlt
      simp only [argminIdx, hsome]
      split
      · simpa using Nat.succ_lt_succ hlt
      · simp

theorem argminIdx_le_getD (w : List ℚ) (j : ℕ) (hj : j < w.length) :
    w.getD (argminIdx w) 0 ≤ w.getD j 0 := by
  induction w generalizing j with
  | nil => simp at hj
  | cons x xs ih =>
    by_cases hne : xs = []
    · subst hne
      match j, hj with
      | 0, _ => simp [argminIdx]
    · have hlt := argminIdx_lt_length xs hne
      obtain ⟨v, hv⟩ : ∃ v, xs.get? (argminIdx xs) = some v := by
        rw [List.get?_eq_get hlt]; exact ⟨_, rfl⟩
      have hgd : xs[argminIdx xs]?.getD 0 = v := by
        rw [← List.get?_eq_getElem?, hv]; rfl
      simp only [argminIdx, hv]
      by_cases hcmp : v < x
      · simp only [hcmp, if_true]
        match j with
        | 0 => simpa [hgd] using le_of_lt hcmp
        | k + 1 =>
          have hk : k < xs.length := Nat.lt_of_succ_lt_succ hj
          simpa using ih k hk
      · simp only [hcmp, if_false]
        match j with
        | 0 => simp
        | k + 1 =>
          have hk : k < xs.length := Nat.lt_of_succ_lt_succ hj
          have h1 := ih k hk
          have hxle : x ≤ v := le_of_not_lt hcmp
          rw [List.getD_eq_getElem?_getD, hgd] at h1
          simpa using le_trans hxle h1

theorem argminIdx_first_getD (w : List ℚ) (j : ℕ) (hj : j < argminIdx w) :
    w.getD (argminIdx w) 0 < w.getD j 0 := by
  induction w generalizing j with
  | nil => simp [argminIdx] at hj
  | cons x xs ih =>
    by_cases hne : xs = []
    · subst hne
      simp [argminIdx] at hj
    · have hlt := argminIdx_lt_length xs hne
      obtain ⟨v, hv⟩ : ∃ v, xs.get? (argminIdx xs) = some v := by
        rw [List.get?_eq_get hlt]; exact ⟨_, rfl⟩
      have hgd : xs[argminIdx xs]?.getD 0 = v := by
        rw [← List.get?_eq_getElem?, hv]; rfl
      simp only [argminIdx, hv] at hj ⊢
      by_cases hcmp : v < x
      · simp only [hcmp, if_true] at hj ⊢
        match j with
        | 0 => simpa [hgd] using hcmp
        | k + 1 =>
          have hk : k < argminIdx xs := Nat.lt_of_succ_lt_succ hj
          simpa using ih k hk
      · simp only [hcmp, if_false] at hj
        exact absurd hj (Nat.not_lt_zero j)

/-! ### The `windows` list -/

theorem window_sums_getD (mrates : Rates) (cm : ℤ) (j : ℕ)
    (hj : j < (window_sums mrates cm).length) :
    (window_sums mrates cm).getD j 0 = windowCost mrates cm j := by
  have hj' : j < ((mrates.length - cm + 1 : ℤ)).toNat := by
    simpa [window_sums] using hj
  simp [window_sums, List.getD_eq_getElem?_getD, List.getElem?_map, List.getElem?_range, hj']

/-- Scaling every price by 10 before summation scales the window sum by 10. -/
theorem windowCost_eq (mrates : Rates) (cm : ℤ) (i : ℕ) :
    windowCost mrates cm i = window_price_sum mrates cm i * 10 := by
  simpa [windowCost, window_price_sum] using
    List.sum_map_mul_right (pySlice mrates (i : ℤ) ((i : ℤ) + cm)) (fun r => r.2) (10 : ℚ)

/-- Claim C1: the window chosen by `find_optimal_window`'s scan (index
`start_index`) has a price sum less than or equal to the price sum of every
other contiguous window of the same length in the per-minute series. -/
theorem c1_window_optimality (mrates : Rates) (cm : ℤ) (j : ℕ)
    (hj : j < (window_sums mrates cm).length) :
    window_price_sum mrates cm (start_index mrates cm) ≤ window_price_sum mrates cm j := by
  have hne : window_sums mrates cm ≠ [] := by
    intro he; rw [he] at hj; simp at hj
  have hsi : argminIdx (window_sums mrates cm) < (window_sums mrates cm).length :=
    argminIdx_lt_length _ hne
  have h := argminIdx_le_getD (window_sums mrates cm) j hj
  rw [window_sums_getD mrates cm _ hsi, window_sums_getD mrates cm j hj] at h
  rw [windowCost_eq, windowCost_eq] at h
  have h10 : (0 : ℚ) < 10 := by norm_num
  simpa [start_index] using le_of_mul_le_mul_right h h10

/-- Witness for C1 on a concrete series: two minutes at prices 5 and 1 with a
one-minute window; the chosen window (index 1) costs no more than window 0. -/
theorem c1_window_optimality_witness :
    0 < (window_sums [((0 : ℤ), (5 : ℚ)), (1, 1)] 1).length ∧
      window_price_sum [((0 : ℤ), (5 : ℚ)), (1, 1)] 1
          (start_index [((0 : ℤ), (5 : ℚ)), (1, 1)] 1) ≤
        window_price_sum [((0 : ℤ), (5 : ℚ)), (1, 1)] 1 0 :=
  ⟨by with_unfolding_all decide,
   c1_window_optimality [((0 : ℤ), (5 : ℚ)), (1, 1)] 1 0 (by with_unfolding_all decide)⟩

/-- Claim C7: when several same-length windows share the minimal price sum,
the scan returns the smallest starting index: any window whose price sum
equals the chosen one's starts no earlier than the chosen index. -/
theorem c7_tie_break (mrates : Rates) (cm : ℤ) (j : ℕ)
    (hj : j < (window_sums mrates cm).length)
    (heq : window_price_sum mrates cm j =
      window_price_sum mrates cm (start_index mrates cm)) :
    start_index mrates cm ≤ j := by
  by_contra hgt
  push_neg at hgt
  have h := argminIdx_first_getD (window_sums mrates cm) j (by simpa [start_index] using hgt)
  have hne : window_sums mrates cm ≠ [] := by
    intro he; rw [he] at hj; simp at hj
  have hsi : argminIdx (window_sums mrates cm) < (window_sums mrates cm).length :=
    argminIdx_lt_length _ hne
  rw [window_sums_getD mrates cm _ hsi, window_sums_getD mrates cm j hj] at h
  rw [windowCost_eq, windowCost_eq] at h
  rw [show argminIdx (window_sums mrates cm) = start_index mrates cm from rfl, heq] at h
  exact lt_irrefl _ h

/-- Witness for C7 on a concrete series with a tie: two minutes at equal
prices, one-minute windows; both windows cost 1, and the chosen index is 0. -/
theorem c7_tie_break_witness :
    1 < (window_sums [((0 : ℤ), (1 : ℚ)), (1, 1)] 1).length ∧
      window_price_sum [((0 : ℤ), (1 : ℚ)), (1, 1)] 1 1 =
        window_price_sum [((0 : ℤ), (1 : ℚ)), (1, 1)] 1
          (start_index [((0 : ℤ), (1 : ℚ)), (1, 1)] 1) ∧
      start_index [((0 : ℤ), (1 : ℚ)), (1, 1)] 1 ≤ 1 :=
  ⟨by with_unfolding_all decide, by with_unfolding_all decide,
   c7_tie_break [((0 : ℤ), (1 : ℚ)), (1, 1)] 1 1 (by with_unfolding_all decide)
     (by with_unfolding_all decide)⟩

/-! ### `convert_rates` expansion -/

theorem convert_rates_length (rates : Rates) :
    (convert_rates rates).length = 60 * rates.length := by
  induction rates with
  | nil => rfl
  | cons p ps ih =>
    show (((List.range 60).map fun (offset : ℕ) => (p.1 - 60 + (offset : ℤ), p.2)) ++
      convert_rates ps).length = 60 * (ps.length + 1)
    rw [List.length_append, List.length_map, List.length_range, ih]
    ring

theorem convert_rates_getElem? (rates : Rates) (i k : ℕ) (hi : i < rates.length)
    (hk : k < 60) :
    (convert_rates rates)[60 * i + k]? =
      some ((rates.get ⟨i, hi⟩).1 - 60 + k, (rates.get ⟨i, hi⟩).2) := by
  induction rates generalizing i with
  | nil => simp at hi
  | cons p ps ih =>
    have hblock : (((List.range 60).map fun (offset : ℕ) =>
        (p.1 - 60 + (offset : ℤ), p.2))).length = 60 := by
      rw [List.length_map, List.length_range]
    show (((List.range 60).map fun (offset : ℕ) => (p.1 - 60 + (offset : ℤ), p.2)) ++
      convert_rates ps)[60 * i + k]? = _
    cases i with
    | zero =>
      have hidx : 60 * 0 + k = k := by omega
      rw [hidx, List.getElem?_append_left (by rw [hblock]; exact hk),
        List.getElem?_map, List.getElem?_range hk]
      rfl
    | succ n =>
      have hn : n < ps.length := Nat.lt_of_succ_lt_succ hi
      have harith : 60 * (n + 1) + k = (((List.range 60).map fun (offset : ℕ) =>
          (p.1 - 60 + (offset : ℤ), p.2))).length + (60 * n + k) := by
        rw [hblock]; omega
      rw [harith, List.getElem?_append_right (by omega)]
      have hsub : (((List.range 60).map fun (offset : ℕ) =>
          (p.1 - 60 + (offset : ℤ), p.2))).length + (60 * n + k) -
          (((List.range 60).map fun (offset : ℕ) =>
          (p.1 - 60 + (offset : ℤ), p.2))).length = 60 * n + k := by omega
      rw [hsub]
      exact ih n hn

/-- Claim C5 as stated is false: for the hourly point `(T, P) = (60, 1)` the
expansion emits timestamps `0 … 59` (= `T−60 … T−1`), not `T−59 … T = 1 … 60`;
the first emitted point is `(T−60, P)`. -/
theorem c5_counterexample :
    (convert_rates [((60 : ℤ), (1 : ℚ))]).head? = some (0, 1) ∧
      (convert_rates [((60 : ℤ), (1 : ℚ))]).map Prod.fst ≠
        (List.range 60).map (fun (k : ℕ) => (k : ℤ) + 1) := by
  with_unfolding_all decide

/-- Claim C5 (amended): for every hourly rate point with hour-end timestamp
`T` and price `P`, the expansion emits exactly 60 per-minute points at
one-minute spacing with timestamps `T−60min` through `T−1min` (each minute's
start), all carrying price exactly `P`, preserving input order, so the output
length is 60 times the input length. -/
theorem c5_amended_expansion (rates : Rates) :
    (convert_rates rates).length = 60 * rates.length ∧
      ∀ i, (hi : i < rates.length) → ∀ k, k < 60 →
        (convert_rates rates)[60 * i + k]? =
          some ((rates.get ⟨i, hi⟩).1 - 60 + k, (rates.get ⟨i, hi⟩).2) :=
  ⟨convert_rates_length rates, fun i hi k hk => convert_rates_getElem? rates i k hi hk⟩

/-- Witness for the amended C5 at the hourly point `(60, 1)`: 60 points total
and point 0 is minute `60 − 60 = 0` at price 1. -/
theorem c5_amended_expansion_witness :
    (convert_rates [((60 : ℤ), (1 : ℚ))]).length = 60 * 1 ∧
      (convert_rates [((60 : ℤ), (1 : ℚ))])[60 * 0 + 0]? = some ((0 : ℤ), (1 : ℚ)) := by
  refine ⟨(c5_amended_expansion [((60 : ℤ), (1 : ℚ))]).1, ?_⟩
  have h := (c5_amended_expansion [((60 : ℤ), (1 : ℚ))]).2 0 (by decide) 0 (by decide)
  simpa using h

/-- Claim C2 is violated by the code: when the minimal-cost window is the
last possible position, `end = rates[end_idx][0]` subscripts one past the end
of the per-minute list and raises `IndexError` instead of returning the
window.  Failing input: one hourly rate `(60, 1)` (a 60-minute series) with a
requested duration of 60 minutes — the only (hence last) window position. -/
theorem c2_last_window_index_error :
    find_optimal_window [((60 : ℤ), (1 : ℚ))] 60 none = .error .indexError := by
  with_unfolding_all decide

/-- Claim C3 is violated by the code: with the valid input of a 60-minute
series (one hourly rate `(60, 1)`) and the positive duration
`charge_minutes = 1`, the window before padding is `(0, 1)` and the symmetric
one-minute padding inverts it: the function returns `start = 1, end = 0`,
so `end > start` fails. -/
theorem c3_padding_inversion :
    find_optimal_window [((60 : ℤ), (1 : ℚ))] 1 none = .ok (1, 0) ∧ ¬ ((0 : ℤ) > 1) := by
  with_unfolding_all decide

/-- Returns `true` iff the embedded computation raised an exception. -/
def isErr : Except Err α → Bool
  | .error _ => true
  | .ok _ => false

/-- A list whose entries are all equal has its first minimal element at
index 0, so `argminIdx` returns 0. -/
theorem argminIdx_of_const (w : List ℚ) (c : ℚ)
    (hc : ∀ j, j < w.length → w.getD j 0 = c) : argminIdx w = 0 := by
  by_contra h
  have hpos : 0 < argminIdx w := Nat.pos_of_ne_zero h
  have hne : w ≠ [] := by
    intro he; subst he; simp [argminIdx] at hpos
  have hlen : argminIdx w < w.length := argminIdx_lt_length w hne
  have h1 := argminIdx_first_getD w 0 hpos
  rw [hc _ hlen, hc 0 (Nat.lt_trans hpos hlen)] at h1
  exact lt_irrefl _ h1

/-- A zero-length window always has cost 0: `rates[i:i+0]` is empty. -/
theorem windowCost_zero (mrates : Rates) (i : ℕ) : windowCost mrates 0 i = 0 := by
  simp [windowCost, pySlice]

/-- Claim C4 as stated is false at `charge_minutes = 0`: on the 60-minute
series from the hourly rate `(60, 1)` the code does not fail; it returns the
(inverted) window `(1, −1)`. -/
theorem c4_counterexample :
    find_optimal_window [((60 : ℤ), (1 : ℚ))] 0 none = .ok (1, -1) := by
  with_unfolding_all decide

/-- Claim C4 (amended): `find_optimal_window` fails whenever the rounded
duration `charge_minutes` is at least the length of the per-minute series
(`ValueError` from `min()` on an empty sequence when it exceeds the length,
`IndexError` when it equals it); but for `charge_minutes = 0` on a nonempty
series it does not fail — it returns a window instead of raising. -/
theorem c4_amended_failure_conditions (rates : Rates) (cm : ℤ) (aw : Option ℤ) :
    (((convert_rates rates).length : ℤ) ≤ cm →
      isErr (find_optimal_window rates cm aw) = true) ∧
    (cm = 0 → convert_rates rates ≠ [] →
      isErr (find_optimal_window rates cm aw) = false) := by
  constructor
  · intro hle
    rcases lt_or_eq_of_le hle with hlt | heq
    · have h0 : (((convert_rates rates).length : ℤ) - cm + 1).toNat = 0 := by omega
      simp [find_optimal_window, window_sums, h0, isErr]
    · have h1 : (((convert_rates rates).length : ℤ) - cm + 1).toNat = 1 := by omega
      have hamin : argminIdx ((List.range 1).map (windowCost (convert_rates rates) cm)) = 0 := by
        have hr : List.range 1 = [0] := rfl
        rw [hr, List.map_cons, List.map_nil]
        rfl
      have hend : pyGet (convert_rates rates) cm = none := by
        have hnn : ¬ (cm < 0) := by omega
        have hge : ¬ (cm < ((convert_rates rates).length : ℤ)) := by omega
        simp [pyGet, hnn, hge]
      simp only [find_optimal_window, window_sums, h1, hamin]
      cases hstart : pyGet (convert_rates rates) (((0 : ℕ) : ℤ)) with
      | none => simp [hstart, hend, isErr]
      | some sv => simp [hstart, hend, isErr]
  · intro hcm hne
    subst hcm
    have hpos : 0 < (convert_rates rates).length := List.length_pos.mpr hne
    have hconst : ∀ j, j < (window_sums (convert_rates rates) 0).length →
        (window_sums (convert_rates rates) 0).getD j 0 = 0 := by
      intro j hj
      rw [window_sums_getD _ _ _ hj, windowCost_zero]
    have hargmin : argminIdx (window_sums (convert_rates rates) 0) = 0 :=
      argminIdx_of_const _ 0 hconst
    obtain ⟨v, hv⟩ : ∃ v, (convert_rates rates).get? 0 = some v := by
      rw [List.get?_eq_get hpos]; exact ⟨_, rfl⟩
    have hv' : (convert_rates rates)[(0 : ℕ)]? = some v := by
      rw [← List.get?_eq_getElem?]; exact hv
    have hget : pyGet (convert_rates rates) ((0 : ℤ)) = some v := by
      have h0 : ¬ ((0 : ℤ) < 0) := by omega
      have hin : ((0 : ℤ)) < (convert_rates rates).length := by exact_mod_cast hpos
      simp [pyGet, h0, hin, hv']
    have hne' : ¬ (window_sums (convert_rates rates) 0).isEmpty = true := by
      have hlen : (((convert_rates rates).length : ℤ) - 0 + 1).toNat =
          (convert_rates rates).length + 1 := by omega
      simp [window_sums, hlen]
    simp only [find_optimal_window, hargmin, hne', if_false]
    cases haw : aw with
    | none => simp [hget, isErr]
    | some a => simp [hget, isErr]

/-- Witness for the amended C4 on the 60-minute series from hourly rate
`(60, 1)`: duration 60 fails, duration 0 does not. -/
theorem c4_amended_failure_conditions_witness :
    isErr (find_optimal_window [((60 : ℤ), (1 : ℚ))] 60 none) = true ∧
      isErr (find_optimal_window [((60 : ℤ), (1 : ℚ))] 0 none) = false :=
  ⟨(c4_amended_failure_conditions [((60 : ℤ), (1 : ℚ))] 60 none).1
      (by with_unfolding_all decide),
   (c4_amended_failure_conditions [((60 : ℤ), (1 : ℚ))] 0 none).2 rfl
      (by with_unfolding_all decide)⟩

set_option maxRecDepth 20000 in
set_option maxHeartbeats 2000000 in
/-- Claim C6 as stated is false: on hourly rates `[(600, 1), (660, 5)]` with
a 60-minute duration the unpadded window is `(540, 600)`; with the awake
floor 600 (= 10:00), the unpadded end's time-of-day (600) is not earlier
than the floor, so the claim says the end is unchanged by this step (i.e.
the padded `599` is returned) — but the code compares the *padded* end
(599 < 600) and returns end `600`. -/
theorem c6_counterexample :
    find_optimal_window [((600 : ℤ), (1 : ℚ)), (660, 5)] 60 (some 600) = .ok (541, 600) ∧
      find_optimal_window [((600 : ℤ), (1 : ℚ)), (660, 5)] 60 none = .ok (541, 599) ∧
      ¬ ((600 : ℤ).emod 1440 < 600) := by
  refine ⟨?_, ?_, by decide⟩ <;> with_unfolding_all decide

/-- Claim C6 (amended): the awake-floor step transforms only the *padded*
end: whenever a run without a floor returns `(s, e)`, the run with floor
`aw` returns the same start `s`, and end `e` replaced by the floor on the
padded end's calendar date exactly when the padded end's time-of-day is
earlier than the floor — and the start is never changed by this step. -/
theorem c6_amended_awake_floor (rates : Rates) (cm : ℤ) (aw s e : ℤ)
    (h : find_optimal_window rates cm none = .ok (s, e)) :
    find_optimal_window rates cm (some aw) =
      .ok (s, if e.emod 1440 < aw then e - e.emod 1440 + aw else e) := by
  simp only [find_optimal_window] at h ⊢
  by_cases hemp : (window_sums (convert_rates rates) cm).isEmpty = true
  · rw [if_pos hemp] at h
    cases h
  · rw [if_neg hemp] at h ⊢
    cases hstart : pyGet (convert_rates rates)
        ((argminIdx (window_sums (convert_rates rates) cm) : ℤ)) with
    | none =>
      rw [hstart] at h
      cases hend : pyGet (convert_rates rates)
          ((argminIdx (window_sums (convert_rates rates) cm) : ℤ) + cm) <;>
        rw [hend] at h <;> simp at h
    | some sv =>
      rw [hstart] at h
      cases hend : pyGet (convert_rates rates)
          ((argminIdx (window_sums (convert_rates rates) cm) : ℤ) + cm) with
      | none =>
        rw [hend] at h
        simp at h
      | some ev =>
        rw [hend] at h
        simp only [Except.ok.injEq, Prod.mk.injEq] at h ⊢
        obtain ⟨hs, he⟩ := h
        exact ⟨hs, by rw [he]⟩

set_option maxRecDepth 20000 in
set_option maxHeartbeats 2000000 in
/-- Witness for the amended C6: hourly rates `[(60, 1), (120, 5)]`,
duration 119 minutes.  The floorless run returns `(1, 118)`; with floor 600
the padded end 118 is lifted to `118 − 118 + 600`. -/
theorem c6_amended_awake_floor_witness :
    find_optimal_window [((60 : ℤ), (1 : ℚ)), (120, 5)] 119 none = .ok (1, 118) ∧
      find_optimal_window [((60 : ℤ), (1 : ℚ)), (120, 5)] 119 (some 600) =
        .ok (1, if (118 : ℤ).emod 1440 < 600 then 118 - (118 : ℤ).emod 1440 + 600
          else 118) :=
  ⟨by with_unfolding_all decide,
   c6_amended_awake_floor [((60 : ℤ), (1 : ℚ)), (120, 5)] 119 600 1 118
     (by with_unfolding_all decide)⟩

/-!
### The RAPI protocol layer (`class RAPI`)

Strings are embedded as `List Char`.  The HTTP transport is abstracted as a
`device : List Char → List Char` mapping the framed command sent as the
`rapi` query parameter to the `ret` field of the JSON response; `execute_cmd`
frames the command, sends it, and validates the response exactly as the code
does.  `print` output is not modelled; `set_schedule` instead returns the
trace of RAPI commands it issued, in order.
-/

/-- The XOR accumulator inside `RAPI.checksum`: `cksum ^= ord(char)` over the
command, starting from 0. -/
def checksumNat (cmd : List Char) : ℕ :=
  cmd.foldl (fun a c => a ^^^ c.toNat) 0

/-- Uppercase hexadecimal digit, as produced by Python's `hex(...)` composed
with `.upper()`. -/
def hexDigit (n : ℕ) : Char :=
  match n with
  | 0 => '0' | 1 => '1' | 2 => '2' | 3 => '3'
  | 4 => '4' | 5 => '5' | 6 => '6' | 7 => '7'
  | 8 => '8' | 9 => '9' | 10 => 'A' | 11 => 'B'
  | 12 => 'C' | 13 => 'D' | 14 => 'E' | _ => 'F'

/-- Hex digits of `n`, most significant first, via fuel-bounded structural
recursion (`hexCharsGo fuel n` is correct whenever `n ≤ fuel`). -/
def hexCharsGo : ℕ → ℕ → List Char
  | _, 0 => []
  | 0, _ + 1 => []
  | fuel + 1, n + 1 => hexCharsGo fuel ((n + 1) / 16) ++ [hexDigit ((n + 1) % 16)]

/-- Python `hex(n)[2:].upper()`: the hexadecimal rendering of `n` with no leading
zeros (and the single digit `0` for `n = 0`). -/
def hexChars (n : ℕ) : List Char :=
  if n = 0 then ['0'] else hexCharsGo n n

/-- Source `RAPI.checksum`: the checksum string of a command. -/
def checksum (cmd : List Char) : List Char :=
  hexChars (checksumNat cmd)

/-- Source `RAPI.cmd_with_checksum`: the command, a caret, and its checksum. -/
def cmd_with_checksum (cmd : List Char) : List Char :=
  cmd ++ '^' :: checksum cmd

/-- Python's `str.split(sep)` for a single-character separator: splits on
every occurrence, keeping empty parts, and yields `[s]` when `sep` does not
occur. -/
def pySplit (l : List Char) (sep : Char) : List (List Char) :=
  match l with
  | [] => [[]]
  | c :: rest =>
    if c = sep then [] :: pySplit rest sep
    else
      match pySplit rest sep with
      | [] => [[c]]
      | h :: t => (c :: h) :: t

/-- The response-validation step of `RAPI.execute_cmd`:
`ret = parsed['ret'].split('^')`, recompute `checksum(ret[0])`, raise on
mismatch with `ret[1]`; accessing `ret[1]` when the split produced a single
part is an `IndexError`.  Returns `ret[0]` (stored as `ret_value`). -/
def validateRet (ret : List Char) : Except Err (List Char) :=
  match pySplit ret '^' with
  | p0 :: p1 :: _ => if p1 ≠ checksum p0 then .error .mismatch else .ok p0
  | _ => .error .indexError

/-- Source `RAPI.execute_cmd` against an abstract device transport. -/
def execute_cmd (device : List Char → List Char) (cmd : List Char) :
    Except Err (List Char) :=
  validateRet (device (cmd_with_checksum cmd))

/-- Decimal digits of a natural number (`f"{n}"`). -/
def decChars (n : ℕ) : List Char :=
  Nat.toDigits 10 n

/-- Python `datetime.hour` for a minute-resolution timestamp. -/
def dtHour (t : ℤ) : ℕ :=
  (t.emod 1440).toNat / 60

/-- Python `datetime.minute` for a minute-resolution timestamp. -/
def dtMinute (t : ℤ) : ℕ :=
  (t.emod 1440).toNat % 60

/-- The query command `"$GD"`. -/
def gdCmd : List Char :=
  '$' :: 'G' :: 'D' :: []

/-- The expected acknowledgement string built in `set_schedule`:
`f"$OK {start.hour} {start.minute} {end.hour} {end.minute}"`. -/
def okResp (s e : ℤ) : List Char :=
  '$' :: 'O' :: 'K' :: ' ' :: (decChars (dtHour s) ++ ' ' :: decChars (dtMinute s) ++
    ' ' :: decChars (dtHour e) ++ ' ' :: decChars (dtMinute e))

/-- The set command built in `set_schedule`:
`f"$ST {start.hour} {start.minute} {end.hour} {end.minute}"`. -/
def stCmd (s e : ℤ) : List Char :=
  '$' :: 'S' :: 'T' :: ' ' :: (decChars (dtHour s) ++ ' ' :: decChars (dtMinute s) ++
    ' ' :: decChars (dtHour e) ++ ' ' :: decChars (dtMinute e))

/-- Source `RAPI.set_schedule`: query the current schedule with `"$GD"`; if the
reported value equals the expected acknowledgement for `(start, end)`, skip
the update; otherwise issue the `"$ST ..."` set command.  The first
component is the trace of issued commands, the second the outcome. -/
def set_schedule (device : List Char → List Char) (s e : ℤ) :
    List (List Char) × Except Err Unit :=
  match execute_cmd device gdCmd with
  | .error er => ([gdCmd], .error er)
  | .ok v =>
    if v = okResp s e then ([gdCmd], .ok ())
    else
      match execute_cmd device (stCmd s e) with
      | .error er => ([gdCmd, stCmd s e], .error er)
      | .ok _ => ([gdCmd, stCmd s e], .ok ())

/-- Claim C8: when the queried value equals the canonical
`"$OK h1 m1 h2 m2"` for the desired `(start, end)`, `set_schedule` issues no
set command and reports the no-op success; when it differs, exactly one set
command `"$ST h1 m1 h2 m2"` with exactly the desired fields is issued. -/
theorem c8_idempotent_write (device : List Char → List Char) (s e : ℤ)
    (v : List Char) (hq : execute_cmd device gdCmd = .ok v) :
    (v = okResp s e → set_schedule device s e = ([gdCmd], .ok ())) ∧
      (v ≠ okResp s e → (set_schedule device s e).1 = [gdCmd, stCmd s e]) := by
  constructor
  · intro hv
    simp [set_schedule, hq, hv]
  · intro hv
    simp only [set_schedule, hq, if_neg hv]
    cases execute_cmd device (stCmd s e) <;> rfl

/-- Witness for C8: a device reporting `"$OK 0 0 1 1"` (start 00:00, end
01:01).  Asking for that very schedule issues no set command; asking for
10:00–11:00 issues exactly the matching set command. -/
theorem c8_idempotent_write_witness :
    execute_cmd (fun _ => cmd_with_checksum (okResp 0 61)) gdCmd = .ok (okResp 0 61) ∧
      set_schedule (fun _ => cmd_with_checksum (okResp 0 61)) 0 61 = ([gdCmd], .ok ()) ∧
      (set_schedule (fun _ => cmd_with_checksum (okResp 0 61)) 600 660).1 =
        [gdCmd, stCmd 600 660] :=
  ⟨by decide,
   (c8_idempotent_write (fun _ => cmd_with_checksum (okResp 0 61)) 0 61
     (okResp 0 61) (by decide)).1 rfl,
   (c8_idempotent_write (fun _ => cmd_with_checksum (okResp 0 61)) 600 660
     (okResp 0 61) (by decide)).2 (by decide)⟩

/-! ### `split('^')` and checksum validation -/

theorem pySplit_eq_single (l : List Char) (sep : Char) (h : sep ∉ l) :
    pySplit l sep = [l] := by
  induction l with
  | nil => rfl
  | cons c rest ih =>
    have hc : ¬ (c = sep) := fun hc => h (hc ▸ List.mem_cons_self c rest)
    have hrest : sep ∉ rest := fun hm => h (List.mem_cons_of_mem c hm)
    simp [pySplit, hc, ih hrest]

theorem pySplit_append (a b : List Char) (sep : Char) (ha : sep ∉ a) :
    pySplit (a ++ sep :: b) sep = a :: pySplit b sep := by
  induction a with
  | nil => simp [pySplit]
  | cons c rest ih =>
    have hc : ¬ (c = sep) := fun hc => ha (hc ▸ List.mem_cons_self c rest)
    have hrest : sep ∉ rest := fun hm => ha (List.mem_cons_of_mem c hm)
    simp [pySplit, hc, ih hrest]

/-- A response without any `'^'` fails with `IndexError` when `ret[1]` is
accessed, before the checksum is ever compared. -/
theorem validateRet_no_sep (ret : List Char) (h : '^' ∉ ret) :
    validateRet ret = .error .indexError := by
  rw [validateRet, pySplit_eq_single ret '^' h]

/-- Claim C10: when the device response's `ret` field contains no `'^'` at
all, `execute_cmd` fails with the index-out-of-range error from
`ret = parsed['ret'].split('^'); ret[1]`, not with the checksum-mismatch
error; the mismatch error is only reachable when the response contains at
least one `'^'`. -/
theorem c10_missing_separator (device : List Char → List Char) (cmd : List Char) :
    ('^' ∉ device (cmd_with_checksum cmd) →
      execute_cmd device cmd = .error .indexError) ∧
      (execute_cmd device cmd = .error .mismatch →
        '^' ∈ device (cmd_with_checksum cmd)) := by
  refine ⟨fun h => validateRet_no_sep _ h, fun h => ?_⟩
  by_contra hn
  rw [execute_cmd, validateRet_no_sep _ hn] at h
  simp at h

/-- Witness for C10: a device answering `"abc"` (no separator) to every
command makes `execute_cmd` raise `IndexError`. -/
theorem c10_missing_separator_witness :
    ('^' ∉ ('a' :: 'b' :: 'c' :: [])) ∧
      execute_cmd (fun _ => ('a' :: 'b' :: 'c' :: [])) gdCmd = .error .indexError :=
  ⟨by decide, (c10_missing_separator (fun _ => ('a' :: 'b' :: 'c' :: [])) gdCmd).1
    (by decide)⟩

theorem hexDigit_ne_sep (n : ℕ) : hexDigit n ≠ '^' := by
  unfold hexDigit
  split <;> decide

theorem hexCharsGo_mem (fuel : ℕ) : ∀ (n : ℕ) (c : Char), c ∈ hexCharsGo fuel n →
    ∃ d, c = hexDigit d := by
  induction fuel with
  | zero =>
    intro n c hc
    cases n <;> simp [hexCharsGo] at hc
  | succ f ih =>
    intro n c hc
    cases n with
    | zero => simp [hexCharsGo] at hc
    | succ m =>
      rw [hexCharsGo] at hc
      rcases List.mem_append.mp hc with h1 | h2
      · exact ih _ c h1
      · exact ⟨(m + 1) % 16, by simpa using h2⟩

theorem hexChars_no_sep (n : ℕ) : '^' ∉ hexChars n := by
  intro hm
  rw [hexChars] at hm
  by_cases h0 : n = 0
  · rw [if_pos h0] at hm
    simp at hm
  · rw [if_neg h0] at hm
    obtain ⟨d, hd⟩ := hexCharsGo_mem n n _ hm
    exact hexDigit_ne_sep d hd.symm

theorem checksum_no_sep (cmd : List Char) : '^' ∉ checksum cmd :=
  hexChars_no_sep _

/-- Framing a `'^'`-free command with its own checksum and validating the
framed form always succeeds and recovers the command. -/
theorem validateRet_roundtrip (cmd : List Char) (h : '^' ∉ cmd) :
    validateRet (cmd_with_checksum cmd) = .ok cmd := by
  rw [cmd_with_checksum, validateRet, pySplit_append _ _ _ h,
    pySplit_eq_single _ _ (checksum_no_sep cmd)]
  simp

theorem foldl_xor_acc (l : List Char) (a : ℕ) :
    l.foldl (fun x c => x ^^^ c.toNat) a = a ^^^ checksumNat l := by
  induction l generalizing a with
  | nil => simp [checksumNat]
  | cons c t ih =>
    have hlhs : (c :: t).foldl (fun x c => x ^^^ c.toNat) a =
        (a ^^^ c.toNat) ^^^ checksumNat t := by
      rw [List.foldl_cons, ih]
    have hrhs : checksumNat (c :: t) = (0 ^^^ c.toNat) ^^^ checksumNat t := by
      rw [checksumNat, List.foldl_cons, ih]
    rw [hlhs, hrhs, Nat.zero_xor, Nat.xor_assoc]

theorem checksumNat_cons (c : Char) (t : List Char) :
    checksumNat (c :: t) = c.toNat ^^^ checksumNat t := by
  rw [checksumNat, List.foldl_cons, foldl_xor_acc, Nat.zero_xor]

theorem zip_countP_zero_eq (v : List Char) : ∀ (w : List Char),
    v.length = w.length → (v.zip w).countP (fun p => p.1 != p.2) = 0 → v = w := by
  induction v with
  | nil =>
    intro w hlen _
    cases w with
    | nil => rfl
    | cons b w' => simp at hlen
  | cons a v' ih =>
    intro w hlen h
    cases w with
    | nil => simp at hlen
    | cons b w' =>
      rw [List.zip_cons_cons, List.countP_cons] at h
      have hab : a = b := by
        by_contra hne
        simp [hne] at h
      simp only [hab, bne_self_eq_false, Bool.false_eq_true, if_false, Nat.add_zero] at h
      rw [hab, ih w' (by simpa using hlen) h]

theorem checksumNat_ne_of_one_diff (v : List Char) : ∀ (w : List Char),
    v.length = w.length → (v.zip w).countP (fun p => p.1 != p.2) = 1 →
    checksumNat v ≠ checksumNat w := by
  induction v with
  | nil =>
    intro w hlen h
    cases w with
    | nil => simp at h
    | cons b w' => simp at hlen
  | cons a v' ih =>
    intro w hlen h
    cases w with
    | nil => simp at hlen
    | cons b w' =>
      rw [List.zip_cons_cons, List.countP_cons] at h
      rw [checksumNat_cons, checksumNat_cons]
      by_cases hab : a = b
      · have hcnt : (v'.zip w').countP (fun p => p.1 != p.2) = 1 := by
          simp [hab] at h
          exact h
        subst hab
        intro heq
        exact ih w' (by simpa using hlen) hcnt (Nat.xor_right_inj.mp heq)
      · have hcnt : (v'.zip w').countP (fun p => p.1 != p.2) = 0 := by
          simp [hab] at h
          exact List.countP_eq_zero.mpr (fun q hq => by simp [h q.1 q.2 (by simpa using hq)])
        have hvw : v' = w' := zip_countP_zero_eq v' w' (by simpa using hlen) hcnt
        subst hvw
        intro heq
        have htn : a.toNat = b.toNat := Nat.xor_left_inj.mp heq
        exact hab (Char.eq_of_val_eq (UInt32.toNat.inj htn))

/-- Value of an uppercase hexadecimal digit (left inverse of `hexDigit`). -/
def hexDigitVal (c : Char) : ℕ :=
  match c with
  | '0' => 0 | '1' => 1 | '2' => 2 | '3' => 3
  | '4' => 4 | '5' => 5 | '6' => 6 | '7' => 7
  | '8' => 8 | '9' => 9 | 'A' => 10 | 'B' => 11
  | 'C' => 12 | 'D' => 13 | 'E' => 14 | _ => 15

/-- Numeric value of a most-significant-first hex digit string. -/
def hexVal (l : List Char) : ℕ :=
  l.foldl (fun a c => a * 16 + hexDigitVal c) 0

theorem hexDigitVal_hexDigit (d : ℕ) (hd : d < 16) :
    hexDigitVal (hexDigit d) = d := by
  interval_cases d <;> rfl

theorem hexVal_hexCharsGo (fuel : ℕ) : ∀ n : ℕ, n ≤ fuel →
    hexVal (hexCharsGo fuel n) = n := by
  induction fuel with
  | zero =>
    intro n hn
    interval_cases n
    rfl
  | succ f ih =>
    intro n hn
    cases n with
    | zero => rfl
    | succ m =>
      have hdiv : (m + 1) / 16 ≤ f := by omega
      rw [hexCharsGo]
      simp only [hexVal, List.foldl_append, List.foldl_cons, List.foldl_nil]
      have hgo : List.foldl (fun a c => a * 16 + hexDigitVal c) 0
          (hexCharsGo f ((m + 1) / 16)) = (m + 1) / 16 := ih _ hdiv
      rw [hgo, hexDigitVal_hexDigit _ (Nat.mod_lt _ (by decide))]
      omega

theorem hexVal_hexChars (n : ℕ) : hexVal (hexChars n) = n := by
  by_cases h0 : n = 0
  · subst h0
    rfl
  · rw [hexChars, if_neg h0]
    exact hexVal_hexCharsGo n n le_rfl

theorem hexChars_injective (a b : ℕ) (h : hexChars a = hexChars b) : a = b := by
  have ha := hexVal_hexChars a
  rw [h, hexVal_hexChars] at ha
  exact ha.symm

/-- Replacing exactly one character of a `'^'`-free value by a different
character (also not `'^'`), while keeping the original checksum, makes
validation fail with the checksum-mismatch error. -/
theorem validateRet_corrupt (v w : List Char) (_hv : '^' ∉ v) (hw : '^' ∉ w)
    (hlen : v.length = w.length)
    (hdiff : (v.zip w).countP (fun p => p.1 != p.2) = 1) :
    validateRet (w ++ '^' :: checksum v) = .error .mismatch := by
  rw [validateRet, pySplit_append _ _ _ hw, pySplit_eq_single _ _ (checksum_no_sep v)]
  have hne : checksum v ≠ checksum w := fun he =>
    checksumNat_ne_of_one_diff v w hlen hdiff (hexChars_injective _ _ he)
  simp [hne]

/-- Claim C9 as stated is false: the value `"A^41"` is a one-character
corruption of `"AB41"` (position 1, `'B'` became `'^'`), yet validating it
against the original checksum `checksum "AB41" = "6"` succeeds — the split
realigns and `checksum "A" = "41"` matches the second field — instead of
failing with a checksum mismatch. -/
theorem c9_counterexample :
    ("AB41".toList).length = ("A^41".toList).length ∧
      (("AB41".toList).zip ("A^41".toList)).countP (fun p => p.1 != p.2) = 1 ∧
      validateRet ("A^41".toList ++ '^' :: checksum ("AB41".toList)) =
        .ok ("A".toList) := by
  refine ⟨by decide, by decide, by decide⟩

/-- Claim C9 (amended): for every command string containing no `'^'`,
framing it with its own XOR checksum and validating the framed form
succeeds; and for every `'^'`-free value, corrupting exactly one character
to a different character that is not `'^'`, while keeping the original
checksum, causes validation to fail with the checksum-mismatch error. -/
theorem c9_amended_checksum_roundtrip :
    (∀ cmd : List Char, '^' ∉ cmd →
      validateRet (cmd_with_checksum cmd) = .ok cmd) ∧
      (∀ v w : List Char, '^' ∉ v → '^' ∉ w → v.length = w.length →
        (v.zip w).countP (fun p => p.1 != p.2) = 1 →
        validateRet (w ++ '^' :: checksum v) = .error .mismatch) :=
  ⟨validateRet_roundtrip, validateRet_corrupt⟩

/-- Witness for the amended C9: the command `"$GD"` round-trips, and the
one-character corruption `"AB" ↦ "AC"` is rejected with a mismatch. -/
theorem c9_amended_checksum_roundtrip_witness :
    validateRet (cmd_with_checksum ("$GD".toList)) = .ok ("$GD".toList) ∧
      validateRet ("AC".toList ++ '^' :: checksum ("AB".toList)) =
        .error .mismatch :=
  ⟨c9_amended_checksum_roundtrip.1 ("$GD".toList) (by decide),
   c9_amended_checksum_roundtrip.2 ("AB".toList) ("AC".toList)
     (by decide) (by decide) (by decide) (by decide)⟩
